import Mathlib

/-!
Verification of the deploy-orchestration client in
`plugs/rust-iphone-compiler/src/main.rs`: the content-store upsert, the
run resolver, the job/step progress reduction, the deploy coordinator,
slug normalization and the base64 transport codec.

Embedding conventions: every remote call is parametrised by an explicit
environment (oracle) supplying its response; the polling loops, which in
the source run over wall-clock time, are embedded as functions over a
finite trace of `(elapsed_ms, response)` pairs, one per iteration (the
backoff sleep only influences the elapsed values, so it is absorbed into
the trace); machine integers are `Nat`; Rust `Result<T, String>` is
`Except String T`.  The single `f32` expression (the progress
percentage) is modelled by exact half-up rational rounding.
-/

deriving instance DecidableEq for Except

namespace Deployer

/-- Mirrors `struct WorkflowRun { id, html_url, status, conclusion }`. -/
structure WorkflowRun where
  id : Nat
  html_url : String
  status : Option String
  conclusion : Option String
  deriving DecidableEq, Repr

/-- Mirrors `struct JobStep { name, status, conclusion }`. -/
structure JobStep where
  name : String
  status : Option String
  conclusion : Option String
  deriving DecidableEq, Repr

/-- Mirrors `struct Job { name, status, conclusion, steps }`. -/
structure Job where
  name : String
  status : Option String
  conclusion : Option String
  steps : List JobStep
  deriving DecidableEq, Repr

/-- Mirrors `struct JobsResp { jobs }`. -/
structure JobsResp where
  jobs : List Job
  deriving DecidableEq, Repr

/-- Rust `char::is_whitespace`: the Unicode `White_Space` property. -/
def isRustWhitespace (c : Char) : Bool :=
  let n := c.toNat
  decide (n = 0x9 ∨ n = 0xA ∨ n = 0xB ∨ n = 0xC ∨ n = 0xD ∨ n = 0x20 ∨ n = 0x85 ∨
    n = 0xA0 ∨ n = 0x1680 ∨ (0x2000 ≤ n ∧ n ≤ 0x200A) ∨ n = 0x2028 ∨ n = 0x2029 ∨
    n = 0x202F ∨ n = 0x205F ∨ n = 0x3000)

/-- Rust `str::trim` on the character list: drop Unicode whitespace from
both ends. -/
def trimChars (l : List Char) : List Char :=
  ((l.dropWhile isRustWhitespace).reverse.dropWhile isRustWhitespace).reverse

/-- Rust `str::trim` on the string model. -/
def rustTrim (s : String) : String := String.mk (trimChars s.data)

/-- Mirrors `deployed_url`: `format!("https://www.webhtml5.info/{}/", plug_slug.trim())`. -/
def deployed_url (plug_slug : String) : String :=
  "https://www.webhtml5.info/" ++ rustTrim plug_slug ++ "/"

/-- Mirrors `is_valid_plug_slug`: trimmed, non-empty, all chars ASCII
lowercase, ASCII digit, or hyphen. -/
def is_valid_plug_slug (s : String) : Bool :=
  let p := rustTrim s
  !p.isEmpty && p.data.all (fun c =>
    decide ((97 ≤ c.toNat ∧ c.toNat ≤ 122) ∨ (48 ≤ c.toNat ∧ c.toNat ≤ 57) ∨ c.toNat = 45))

/-- One traversal step of the inner loop of `job_progress`: the
accumulator is `(total, done, current)`; `total += 1`; a completed step
increments `done`; otherwise the first pending step (while `current` is
still empty) records the label `"{job} → {step}"`. -/
def jpStep (jname : String) (st : Nat × Nat × String) (s : JobStep) : Nat × Nat × String :=
  if s.status = some "completed" then (st.1 + 1, st.2.1 + 1, st.2.2)
  else if st.2.2 = "" then (st.1 + 1, st.2.1, jname ++ " → " ++ s.name)
  else (st.1 + 1, st.2.1, st.2.2)

/-- Mirrors `fn job_progress(jobs: &JobsResp) -> (u32, u32, String)`. -/
def job_progress (jobs : JobsResp) : Nat × Nat × String :=
  let st := jobs.jobs.foldl (fun acc j => j.steps.foldl (jpStep j.name) acc) (0, 0, "")
  if st.1 = 0 then (0, 0, "Waiting for job steps…")
  else if st.2.2 = "" ∧ st.2.1 = st.1 then (st.2.1, st.1, "Finalizing…")
  else (st.2.1, st.1, st.2.2)

/-- Percentage as computed inside `poll_run_progress`:
`((done as f32 / total as f32) * 100.0).round() as u8`, modelled by
exact half-up rounding of `100 * done / total` (`0` when `total = 0`). -/
def poll_pct (done total : Nat) : Nat :=
  if total = 0 then 0 else (200 * done + total) / (2 * total)

/-- Overall status/conclusion reduction of one iteration of
`poll_run_progress` (source lines 575-605): the flags `any_incomplete`,
`any_failure`, `any_cancel` are computed over the **jobs** (not the
steps), and the conclusion is absent while any job is incomplete. -/
def poll_overall (jobs : JobsResp) : Option String × Option String :=
  let any_incomplete := jobs.jobs.any (fun j => j.status != some "completed")
  let any_failure := jobs.jobs.any (fun j => j.conclusion == some "failure")
  let any_cancel := jobs.jobs.any (fun j => j.conclusion == some "cancelled")
  let status := if any_incomplete then some "in_progress" else some "completed"
  let conclusion :=
    if any_incomplete then none
    else if any_failure then some "failure"
    else if any_cancel then some "cancelled"
    else some "success"
  (status, conclusion)

/-- Mirrors `wait_for_new_run_id` over a finite trace: each trace entry
is one loop iteration, carrying the elapsed milliseconds observed at its
start and the `gh_fetch_runs` response (the list is newest-first, as
delivered by the platform).  `none` means the trace was exhausted with
the loop still running. -/
def wait_for_new_run_id (baseline_run_id : Nat) (timeout_ms : Nat) :
    List (Nat × Except String (List WorkflowRun)) → Option (Except String WorkflowRun)
  | [] => none
  | (elapsed, fetch) :: rest =>
    if timeout_ms < elapsed then
      some (Except.error "Stopped polling (timeout). Tap Resume Polling.")
    else
      match fetch with
      | Except.error e => some (Except.error e)
      | Except.ok runs =>
        match runs.find? (fun r => baseline_run_id < r.id) with
        | some found => some (Except.ok found)
        | none => wait_for_new_run_id baseline_run_id timeout_ms rest

/-- Environment for one `gh_upsert_file` call: `shaResp n` is the
response to the `n`-th `gh_get_file_sha` lookup, and `putResp sha n` is
the HTTP `(status, body)` answering the `n`-th `gh_put_file` attempt
(the sha it was sent may influence the remote's answer). -/
structure UpsertEnv where
  shaResp : Nat → Except String (Option String)
  putResp : Option String → Nat → Nat × String

/-- Response.ok() of the HTTP client: status in 200..=299. -/
def respOk (status : Nat) : Bool := decide (200 ≤ status ∧ status ≤ 299)

/-- Mirrors the tail of `gh_put_file`: `Ok(())` on a 2xx response,
otherwise the formatted `PUT .. failed` error. -/
def gh_put_file (path : String) (resp : Nat × String) : Except String Unit :=
  if respOk resp.1 then Except.ok ()
  else Except.error ("PUT " ++ path ++ " failed: " ++ toString resp.1 ++ " " ++ resp.2)

/-- Version token used by `gh_upsert_file`: the single sha lookup,
with lookup errors swallowed to `none` (best-effort; still try create). -/
def upsertSha (env : UpsertEnv) : Option String :=
  match env.shaResp 0 with
  | Except.ok s => s
  | Except.error _ => none

/-- Mirrors `gh_upsert_file`: one best-effort sha lookup, then exactly
one put.  The result triple is `(put result, sha lookups made, put
attempts made)`. -/
def gh_upsert_file (env : UpsertEnv) (path : String) : Except String Unit × Nat × Nat :=
  (gh_put_file path (env.putResp (upsertSha env) 0), 1, 1)

/-- Modelled from the spec (§4.2 step 3), for comparison with
`gh_upsert_file`: on a `Conflict` (HTTP 409) answer to the first put,
refetch the version token once and retry the put exactly once. -/
def upsertSpecClaim (env : UpsertEnv) (path : String) : Except String Unit × Nat × Nat :=
  let r0 := env.putResp (upsertSha env) 0
  if r0.1 = 409 then
    let sha1 := match env.shaResp 1 with
      | Except.ok s => s
      | Except.error _ => none
    (gh_put_file path (env.putResp sha1 1), 2, 2)
  else
    (gh_put_file path r0, 1, 1)

/-- Observable remote calls issued by the deploy task, in order. -/
inductive DeployEvent
  | upsertCall (path : String)
  | dispatchCall
  | resolveCall
  | pollCall (rid : Nat)
  deriving DecidableEq, Repr

/-- Exit branch taken by the deploy task, labelling the distinct
`return`/fall-through points of the async block of `on_build_deploy`. -/
inductive DeployExit
  | uploadFailed (errs : List String)
  | dispatchFailed (e : String)
  | resolvePending
  | resolveFailed (e : String)
  | pollInterrupted (e : String)
  | done (conclusion : String) (url : String)
  deriving DecidableEq, Repr

/-- Component state touched by the deploy flow: the yew `use_state`
hooks plus the three LocalStorage keys. -/
structure AppState where
  busy : Bool
  progress_pct : Nat
  progress_line : String
  run_status : String
  run_conclusion : String
  run_id : Option Nat
  run_url : String
  log : String
  ls_last_run_id : Option String
  ls_last_url : Option String
  ls_last_plug : Option String
  deriving DecidableEq, Repr

/-- Environment answering the remote calls of one deploy invocation. -/
structure DeployEnv where
  baselineResp : Except String (List WorkflowRun)
  upsertResp : String → Except String Unit
  dispatchResp : Except String Unit
  resolveTrace : List (Nat × Except String (List WorkflowRun))
  pollResp : Except String (Option String × Option String)

/-- Baseline run id of the deploy task: the id of the newest run of the
`per_page = 1` pre-dispatch fetch, `0` on an empty list or a fetch
error. -/
def baselineOf (env : DeployEnv) : Nat :=
  match env.baselineResp with
  | Except.ok list => (list.head?.map WorkflowRun.id).getD 0
  | Except.error _ => 0

/-- The four repository paths written by a deploy, in source order. -/
def uploadPaths (slug : String) : List String :=
  ["plugs/" ++ slug ++ "/index.html", "plugs/" ++ slug ++ "/styles.css",
   "plugs/" ++ slug ++ "/Cargo.toml", "plugs/" ++ slug ++ "/src/main.rs"]

/-- The errors collected from the four upserts, in source order. -/
def uploadErrs (env : DeployEnv) (slug : String) : List String :=
  ((uploadPaths slug).map env.upsertResp).filterMap (fun r => match r with
    | Except.ok _ => none
    | Except.error e => some e)

/-- Mirrors the async block of `on_build_deploy` (source lines
808-904): baseline fetch, the four upserts, error aggregation, dispatch,
run resolution, state/storage updates, and the poll outcome handling.
The poll's incremental `on_update` callbacks touch only
`progress_pct`/`progress_line`/`run_status`/`run_conclusion`, never
`run_id` or storage, so they are absorbed into the poll response. -/
def deployTask (env : DeployEnv) (slug : String) (st : AppState) :
    AppState × List DeployEvent × DeployExit :=
  let baseline := baselineOf env
  let st1 := { st with progress_line := "Uploading files…" }
  let events := (uploadPaths slug).map DeployEvent.upsertCall
  let errs := uploadErrs env slug
  if errs.isEmpty = false then
    ({ st1 with log := "Create/update file error:\n" ++ String.intercalate "\n" errs,
                busy := false },
     events, DeployExit.uploadFailed errs)
  else
    let st2 := { st1 with progress_line := "Dispatching workflow…" }
    match env.dispatchResp with
    | Except.error e =>
      ({ st2 with log := "Dispatch error: " ++ e, busy := false },
       events ++ [DeployEvent.dispatchCall], DeployExit.dispatchFailed e)
    | Except.ok _ =>
      let st3 := { st2 with progress_line := "Finding the run that was created…" }
      match wait_for_new_run_id baseline 120000 env.resolveTrace with
      | none =>
        (st3, events ++ [DeployEvent.dispatchCall, DeployEvent.resolveCall],
         DeployExit.resolvePending)
      | some (Except.error e) =>
        ({ st3 with log := e ++ "\nTip: Refresh runs or resume polling.", busy := false },
         events ++ [DeployEvent.dispatchCall, DeployEvent.resolveCall],
         DeployExit.resolveFailed e)
      | some (Except.ok run) =>
        let rid := run.id
        let url := deployed_url slug
        let st4 := { st3 with
          run_id := some rid, run_url := url,
          ls_last_run_id := some (toString rid),
          ls_last_url := some url, ls_last_plug := some slug,
          log := "Run attached ✅\nRun ID: " ++ toString rid ++ "\nGitHub run: " ++
                 run.html_url ++ "\nDeployed URL: " ++ url,
          progress_line := "Polling progress…" }
        let events4 := events ++ [DeployEvent.dispatchCall, DeployEvent.resolveCall,
                                  DeployEvent.pollCall rid]
        match env.pollResp with
        | Except.ok res =>
          let conc := res.2.getD "unknown"
          let st5 := if conc = "success" then
              { st4 with log := "✅ Success!\nDeployed: " ++ url, busy := false }
            else
              { st4 with
                  log := "Run completed with conclusion: " ++ conc ++
                    "\nOpen GitHub run for full logs if needed.\nDeployed URL: " ++ url,
                  busy := false }
          (st5, events4, DeployExit.done conc url)
        | Except.error e =>
          ({ st4 with
               log := e ++ "\nRun ID: " ++ toString rid ++
                 "\nYou can tap Resume Polling, or open the GitHub run link shown above.",
               busy := false },
           events4, DeployExit.pollInterrupted e)

/-- Mirrors the synchronous guards of `on_build_deploy` before the async
block is spawned: reentrancy, token presence, slug validity; `none`
means the guard rejected the call and no remote call was issued. -/
def on_build_deploy (env : DeployEnv) (token title slug : String) (st : AppState) :
    AppState × List DeployEvent × Option DeployExit :=
  if st.busy then (st, [], none)
  else if rustTrim token = "" then ({ st with log := "Missing GitHub token." }, [], none)
  else if is_valid_plug_slug slug = false then
    ({ st with log := "Invalid plug-name slug. Use App Name field to auto-generate, or ensure lowercase letters/numbers/hyphens." },
     [], none)
  else
    let st1 := { st with
                   busy := true, progress_pct := 0, progress_line := "Starting…",
                   run_status := "", run_conclusion := "",
                   log := "Preparing repo files for: " ++ title ++ "\nplug: " ++ slug }
    let r := deployTask env slug st1
    (r.1, r.2.1, some r.2.2)

/-- Mirrors `on_resume`: guards, then polls the **stored** run id; the
second component reports which run id was polled (`none` when no poll
was started). -/
def on_resume (pollResp : Except String (Option String × Option String))
    (token : String) (st : AppState) : AppState × Option Nat :=
  if st.busy then (st, none)
  else if rustTrim token = "" then ({ st with log := "Missing GitHub token." }, none)
  else
    match st.run_id with
    | none => ({ st with log := "No saved run id. Build + Deploy first." }, none)
    | some rid =>
      let st1 := { st with
                     busy := true, progress_line := "Resuming polling…",
                     log := "Resuming run " ++ toString rid ++ "…" }
      match pollResp with
      | Except.ok res =>
        let conc := res.2.getD "unknown"
        ({ st1 with log := "Run complete: " ++ conc, busy := false }, some rid)
      | Except.error e => ({ st1 with log := e, busy := false }, some rid)

/-- Rust `char::to_ascii_lowercase`. -/
def toAsciiLower (c : Char) : Char :=
  if 65 ≤ c.toNat ∧ c.toNat ≤ 90 then Char.ofNat (c.toNat + 32) else c

/-- Rust `char::is_ascii_alphanumeric`. -/
def isAsciiAlnum (c : Char) : Bool :=
  decide ((48 ≤ c.toNat ∧ c.toNat ≤ 57) ∨ (65 ≤ c.toNat ∧ c.toNat ≤ 90) ∨
    (97 ≤ c.toNat ∧ c.toNat ≤ 122))

/-- Character loop of `sanitize_slug_from_app_name`; `acc` is `out`
built in reverse (pushing a character is `cons`), `prevDash` mirrors the
`prev_dash` flag.  Alphanumerics (after ASCII lowercasing) are kept,
whitespace / `-` / `_` become a single never-leading hyphen, and every
other character is ignored. -/
def slugLoop : List Char → List Char → Bool → List Char
  | [], acc, _ => acc
  | ch :: rest, acc, prevDash =>
    let c := toAsciiLower ch
    if isAsciiAlnum c then slugLoop rest (c :: acc) false
    else if isRustWhitespace c || c == '-' || c == '_' then
      if !acc.isEmpty && !prevDash then slugLoop rest ('-' :: acc) true
      else slugLoop rest acc prevDash
    else slugLoop rest acc prevDash

/-- Mirrors `sanitize_slug_from_app_name`: trim, run the loop, pop
trailing hyphens, `None` when nothing is left. -/
def sanitize_slug_from_app_name (app_name : String) : Option String :=
  let s := trimChars app_name.data
  if s.isEmpty then none
  else
    let out := ((slugLoop s [] false).dropWhile (fun c => c == '-')).reverse
    if out.isEmpty then none else some (String.mk out)

/-- Character class `[a-z0-9]` of the slug grammar. -/
def isLowerAlnum (c : Char) : Bool :=
  decide ((97 ≤ c.toNat ∧ c.toNat ≤ 122) ∨ (48 ≤ c.toNat ∧ c.toNat ≤ 57))

mutual

/-- Matcher for the regular expression `[a-z0-9]+(-[a-z0-9]+)*` applied
to a whole character list (anchored at both ends): a chunk must start
with an alphanumeric... -/
def slugChunk : List Char → Bool
  | [] => false
  | c :: rest => isLowerAlnum c && slugAfter rest

/-- ...and continue with alphanumerics, each hyphen opening a fresh
non-empty chunk. -/
def slugAfter : List Char → Bool
  | [] => true
  | c :: rest => if c == '-' then slugChunk rest else isLowerAlnum c && slugAfter rest

end

/-- Anchored match of `^[a-z0-9]+(-[a-z0-9]+)*$` on a string. -/
def slugRegexMatch (s : String) : Bool := slugChunk s.data

/-- Standard base64 alphabet: sextet value to ASCII code. -/
def b64Char (n : Nat) : Nat :=
  if n < 26 then 65 + n
  else if n < 52 then 97 + (n - 26)
  else if n < 62 then 48 + (n - 52)
  else if n = 62 then 43
  else 47

/-- Inverse alphabet lookup: ASCII code to sextet value, `none` for a
symbol outside the standard alphabet (including the pad `=`). -/
def b64Sextet (c : Nat) : Option Nat :=
  if 65 ≤ c ∧ c ≤ 90 then some (c - 65)
  else if 97 ≤ c ∧ c ≤ 122 then some (26 + (c - 97))
  else if 48 ≤ c ∧ c ≤ 57 then some (52 + (c - 48))
  else if c = 43 then some 62
  else if c = 47 then some 63
  else none

/-- Standard padded base64 encoding of a byte list (the
`general_purpose::STANDARD` engine used by `b64_encode`); 61 is `=`. -/
def b64EncodeBytes : List Nat → List Nat
  | b0 :: b1 :: b2 :: rest =>
    b64Char (b0 / 4) :: b64Char (b0 % 4 * 16 + b1 / 16) ::
    b64Char (b1 % 16 * 4 + b2 / 64) :: b64Char (b2 % 64) :: b64EncodeBytes rest
  | [b0, b1] => [b64Char (b0 / 4), b64Char (b0 % 4 * 16 + b1 / 16), b64Char (b1 % 16 * 4), 61]
  | [b0] => [b64Char (b0 / 4), b64Char (b0 % 4 * 16), 61, 61]
  | [] => []

/-- Strict standard base64 decoding (the `general_purpose::STANDARD`
engine): four-symbol blocks, canonical padding only in the final block,
zero trailing bits required, any other shape rejected. -/
def b64DecodeBytes : List Nat → Except String (List Nat)
  | [] => Except.ok []
  | c0 :: c1 :: c2 :: c3 :: rest =>
    match b64Sextet c0, b64Sextet c1 with
    | some s0, some s1 =>
      if c3 = 61 then
        if rest.isEmpty = false then Except.error "Invalid byte"
        else if c2 = 61 then
          if s1 % 16 = 0 then Except.ok [s0 * 4 + s1 / 16]
          else Except.error "Invalid last symbol"
        else
          match b64Sextet c2 with
          | some s2 =>
            if s2 % 4 = 0 then Except.ok [s0 * 4 + s1 / 16, s1 % 16 * 16 + s2 / 4]
            else Except.error "Invalid last symbol"
          | none => Except.error "Invalid byte"
      else
        match b64Sextet c2, b64Sextet c3 with
        | some s2, some s3 =>
          match b64DecodeBytes rest with
          | Except.ok bs =>
            Except.ok ((s0 * 4 + s1 / 16) :: (s1 % 16 * 16 + s2 / 4) :: (s2 % 4 * 64 + s3) :: bs)
          | Except.error e => Except.error e
        | _, _ => Except.error "Invalid byte"
    | _, _ => Except.error "Invalid byte"
  | _ => Except.error "Invalid input length"

/-- Byte 0x80..=0xBF: a UTF-8 continuation byte. -/
def utf8Cont (b : Nat) : Bool := decide (0x80 ≤ b ∧ b ≤ 0xBF)

/-- Well-formed UTF-8 byte stream (what Rust `String::from_utf8`
accepts): the standard table of lead bytes and continuation ranges,
rejecting overlong forms, surrogates and values above U+10FFFF. -/
def validUtf8 : List Nat → Bool
  | [] => true
  | b :: rest =>
    if b < 0x80 then validUtf8 rest
    else
      match rest with
      | [] => false
      | b1 :: r1 =>
        if 0xC2 ≤ b ∧ b ≤ 0xDF then utf8Cont b1 && validUtf8 r1
        else
          match r1 with
          | [] => false
          | b2 :: r2 =>
            if b = 0xE0 then decide (0xA0 ≤ b1 ∧ b1 ≤ 0xBF) && utf8Cont b2 && validUtf8 r2
            else if (0xE1 ≤ b ∧ b ≤ 0xEC) ∨ (0xEE ≤ b ∧ b ≤ 0xEF) then
              utf8Cont b1 && utf8Cont b2 && validUtf8 r2
            else if b = 0xED then decide (0x80 ≤ b1 ∧ b1 ≤ 0x9F) && utf8Cont b2 && validUtf8 r2
            else
              match r2 with
              | [] => false
              | b3 :: r3 =>
                if b = 0xF0 then
                  decide (0x90 ≤ b1 ∧ b1 ≤ 0xBF) && utf8Cont b2 && utf8Cont b3 && validUtf8 r3
                else if 0xF1 ≤ b ∧ b ≤ 0xF3 then
                  utf8Cont b1 && utf8Cont b2 && utf8Cont b3 && validUtf8 r3
                else if b = 0xF4 then
                  decide (0x80 ≤ b1 ∧ b1 ≤ 0x8F) && utf8Cont b2 && utf8Cont b3 && validUtf8 r3
                else false

/-- Rust `String::from_utf8` over the byte-list model of strings: a Rust
`String` is its UTF-8 byte sequence, so a successful conversion returns
the bytes themselves. -/
def string_from_utf8 (bs : List Nat) : Except String (List Nat) :=
  if validUtf8 bs then Except.ok bs else Except.error "utf8 decode failed"

/-- Mirrors `b64_encode` with Rust strings modelled as their UTF-8 byte
lists (`s.as_bytes()` is then the identity). -/
def b64_encode (s : List Nat) : List Nat := b64EncodeBytes s

/-- Mirrors `b64_decode`: strip newline bytes, strict standard base64
decode, then UTF-8 validation. -/
def b64_decode (s : List Nat) : Except String (List Nat) :=
  let cleaned := s.filter (fun c => c ≠ 10)
  match b64DecodeBytes cleaned with
  | Except.ok bytes => string_from_utf8 bytes
  | Except.error e => Except.error ("base64 decode failed: " ++ e)

/-- Environment exhibiting a first-put Conflict whose retry would
succeed: lookups find no existing file, attempt 0 answers 409, attempt 1
would answer 200. -/
def envC1 : UpsertEnv where
  shaResp := fun _ => Except.ok none
  putResp := fun _ n => if n = 0 then (409, "conflict") else (200, "ok")

/-- Claim C1 is false on the code: when the initial put fails with
Conflict (HTTP 409), `gh_upsert_file` neither refetches the version
token nor retries the put — it makes exactly one put attempt and fails
immediately, diverging from the spec-modelled refetch-and-retry
`upsertSpecClaim` on this environment (where the retry would have
succeeded). -/
theorem C1_counterexample :
    (envC1.putResp (upsertSha envC1) 0).1 = 409 ∧
    (gh_upsert_file envC1 "plugs/demo/index.html").2.2 = 1 ∧
    gh_upsert_file envC1 "plugs/demo/index.html" ≠
      upsertSpecClaim envC1 "plugs/demo/index.html" := by
  refine ⟨rfl, rfl, ?_⟩
  intro h
  have h1 := congrArg (fun x => x.1) h
  simp [gh_upsert_file, upsertSpecClaim, envC1, upsertSha, gh_put_file, respOk] at h1

/-- Claim C1 amended: `gh_upsert_file` makes exactly one version lookup
and exactly one put attempt per call (so "at most two" holds vacuously),
but there is no conflict recovery at all: a Conflict (409) answer to the
single put is immediately fatal, with no refetch and no retry. -/
theorem C1_upsert_single_attempt (env : UpsertEnv) (path : String) :
    (gh_upsert_file env path).2.1 = 1 ∧ (gh_upsert_file env path).2.2 = 1 ∧
    ((env.putResp (upsertSha env) 0).1 = 409 →
      (gh_upsert_file env path).1 = Except.error
        ("PUT " ++ path ++ " failed: " ++ toString (env.putResp (upsertSha env) 0).1 ++
         " " ++ (env.putResp (upsertSha env) 0).2)) := by
  refine ⟨rfl, rfl, fun h => ?_⟩
  simp [gh_upsert_file, gh_put_file, respOk, h]

/-- Witness for `C1_upsert_single_attempt` at `envC1`. -/
theorem C1_upsert_single_attempt_witness :
    (envC1.putResp (upsertSha envC1) 0).1 = 409 ∧
    (gh_upsert_file envC1 "p").1 = Except.error
      ("PUT " ++ "p" ++ " failed: " ++ toString (envC1.putResp (upsertSha envC1) 0).1 ++
       " " ++ (envC1.putResp (upsertSha envC1) 0).2) :=
  ⟨rfl, (C1_upsert_single_attempt envC1 "p").2.2 rfl⟩

/-- Workflow run with a given id and empty metadata. -/
def runOfId (n : Nat) : WorkflowRun :=
  { id := n, html_url := "", status := none, conclusion := none }

/-- Claim C2 is false on the code in its tie-break clause: with baseline
5 and a newest-first list containing the two new ids 8 and 6,
`wait_for_new_run_id` returns the run with id 8 — the first match in
the newest-first list, hence the **newest** new id, not the lowest
(oldest) — and it applies no trigger-type or branch filter (the runs
carry no such data at all). -/
theorem C2_counterexample :
    wait_for_new_run_id 5 120000
        [(0, Except.ok [runOfId 8, runOfId 6, runOfId 5, runOfId 3])] =
      some (Except.ok (runOfId 8)) ∧ (runOfId 8).id ≠ 6 := by
  refine ⟨rfl, by decide⟩

/-- Claim C2 amended: whenever the resolver returns a run, its id is
strictly greater than the baseline id; on the baseline `{3,4,5}` /
list `{3,4,5,6}` example it returns run 6; when several new ids are
present it returns the **first** match of the newest-first list (the
newest new id, not the lowest); and once the observed elapsed time
exceeds `timeout_ms` it returns the timeout error. -/
theorem C2_resolver_behavior :
    (∀ (baseline timeout : Nat) (trace : List (Nat × Except String (List WorkflowRun)))
       (r : WorkflowRun),
       wait_for_new_run_id baseline timeout trace = some (Except.ok r) → baseline < r.id) ∧
    wait_for_new_run_id 5 120000
        [(0, Except.ok [runOfId 6, runOfId 5, runOfId 4, runOfId 3])] =
      some (Except.ok (runOfId 6)) ∧
    wait_for_new_run_id 5 120000 [(0, Except.ok [runOfId 8, runOfId 6])] =
      some (Except.ok (runOfId 8)) ∧
    (∀ (baseline timeout elapsed : Nat) (fetch : Except String (List WorkflowRun))
       (rest : List (Nat × Except String (List WorkflowRun))), timeout < elapsed →
       wait_for_new_run_id baseline timeout ((elapsed, fetch) :: rest) =
         some (Except.error "Stopped polling (timeout). Tap Resume Polling.")) := by
  refine ⟨?_, rfl, rfl, ?_⟩
  · intro baseline timeout trace
    induction trace with
    | nil => intro r h; simp [wait_for_new_run_id] at h
    | cons head rest ih =>
      intro r h
      obtain ⟨elapsed, fetch⟩ := head
      simp only [wait_for_new_run_id] at h
      split at h
      · simp at h
      · cases fetch with
        | error e => simp at h
        | ok runs =>
          simp only at h
          cases hf : runs.find? (fun x => decide (baseline < x.id)) with
          | none => rw [hf] at h; exact ih r h
          | some found =>
            rw [hf] at h
            have hp := List.find?_some hf
            have : found = r := by simpa using h
            subst this
            exact of_decide_eq_true hp
  · intro baseline timeout elapsed fetch rest hlt
    simp only [wait_for_new_run_id]
    simp [hlt]

/-- Witness for `C2_resolver_behavior`: its universally quantified parts
applied at the concrete baseline-5 example and a concrete timeout. -/
theorem C2_resolver_behavior_witness :
    (5 : Nat) < (runOfId 6).id ∧
    wait_for_new_run_id 5 120000 [(130000, Except.ok [])] =
      some (Except.error "Stopped polling (timeout). Tap Resume Polling.") :=
  ⟨C2_resolver_behavior.1 5 120000
     [(0, Except.ok [runOfId 6, runOfId 5, runOfId 4, runOfId 3])] (runOfId 6)
     C2_resolver_behavior.2.1,
   C2_resolver_behavior.2.2.2 5 120000 130000 (Except.ok []) [] (by decide)⟩

/-- Quiescent component state. -/
def st0 : AppState where
  busy := false
  progress_pct := 0
  progress_line := ""
  run_status := ""
  run_conclusion := ""
  run_id := none
  run_url := ""
  log := ""
  ls_last_run_id := none
  ls_last_url := none
  ls_last_plug := none

/-- Environment where the very first upsert (`index.html`) fails and
the other three would succeed. -/
def envC3 : DeployEnv where
  baselineResp := Except.ok [runOfId 5]
  upsertResp := fun p => if p = "plugs/demo/index.html" then Except.error "boom" else Except.ok ()
  dispatchResp := Except.ok ()
  resolveTrace := []
  pollResp := Except.error "unused"

/-- Claim C3 is false on the code in its abort clause: with the first
upsert failing, the deploy task still issues all four upsert calls
(the failure does not stop the remaining uploads); only afterwards are
the errors collected and the run aborted. -/
theorem C3_counterexample :
    envC3.upsertResp "plugs/demo/index.html" = Except.error "boom" ∧
    (deployTask envC3 "demo" st0).2.1 = (uploadPaths "demo").map DeployEvent.upsertCall ∧
    ((deployTask envC3 "demo" st0).2.1).length = 4 ∧
    (deployTask envC3 "demo" st0).2.2 = DeployExit.uploadFailed ["boom"] := by
  refine ⟨by decide, ?_, ?_, ?_⟩ <;> rfl

/-- Claim C3 amended: the Uploading phase issues the four upserts
sequentially in source order (index.html, styles.css, Cargo.toml,
src/main.rs); an upsert failure does **not** abort the remaining
uploads — all four are always attempted — but any failure aborts the
deploy before dispatch: the exit is the upload-failure branch, no
dispatch call is issued, and the busy guard is released. -/
theorem C3_uploads_all_attempted (env : DeployEnv) (slug : String) (st : AppState) :
    ((deployTask env slug st).2.1).take 4 = (uploadPaths slug).map DeployEvent.upsertCall ∧
    (uploadErrs env slug ≠ [] →
      (deployTask env slug st).2.1 = (uploadPaths slug).map DeployEvent.upsertCall ∧
      (deployTask env slug st).2.2 = DeployExit.uploadFailed (uploadErrs env slug) ∧
      DeployEvent.dispatchCall ∉ (deployTask env slug st).2.1 ∧
      (deployTask env slug st).1.busy = false) := by
  constructor
  · unfold deployTask
    dsimp only
    by_cases hne : (uploadErrs env slug).isEmpty = false
    · simp [hne, uploadPaths]
    · rcases hd : env.dispatchResp with e | u
      · simp [hne, hd, uploadPaths]
      · rcases hw : wait_for_new_run_id (baselineOf env) 120000 env.resolveTrace with _ | er
        · simp [hne, hd, hw, uploadPaths]
        · rcases er with e3 | r
          · simp [hne, hd, hw, uploadPaths]
          · rcases hp : env.pollResp with e4 | res
            · simp [hne, hd, hw, hp, uploadPaths]
            · simp [hne, hd, hw, hp, uploadPaths]
  · intro herr
    have hne : (uploadErrs env slug).isEmpty = false := by
      cases hcase : uploadErrs env slug with
      | nil => exact absurd hcase herr
      | cons a l => rfl
    unfold deployTask
    simp only [hne]
    refine ⟨rfl, rfl, ?_, rfl⟩
    simp [uploadPaths]

/-- Witness for `C3_uploads_all_attempted` at `envC3`. -/
theorem C3_uploads_all_attempted_witness :
    uploadErrs envC3 "demo" ≠ [] ∧
    (deployTask envC3 "demo" st0).2.1 = (uploadPaths "demo").map DeployEvent.upsertCall ∧
    DeployEvent.dispatchCall ∉ (deployTask envC3 "demo" st0).2.1 :=
  ⟨by decide,
   ((C3_uploads_all_attempted envC3 "demo" st0).2 (by decide)).1,
   ((C3_uploads_all_attempted envC3 "demo" st0).2 (by decide)).2.2.1⟩

/-- Claim C7: when every upload succeeded, dispatch succeeded and a run
was resolved, a poll that ends in an error (the soft timeout) leaves the
stored run id and saved session exactly as they were set for that run:
component state and LocalStorage still hold the resolved run's id, the
busy guard is released, and a subsequent `on_resume` (with a non-empty
token and any later poll outcome) polls that very same run id. -/
theorem C7_poll_timeout_preserves_run_id (env : DeployEnv) (slug tok : String)
    (st : AppState) (run : WorkflowRun) (e : String)
    (hup : uploadErrs env slug = [])
    (hd : env.dispatchResp = Except.ok ())
    (hw : wait_for_new_run_id (baselineOf env) 120000 env.resolveTrace = some (Except.ok run))
    (hp : env.pollResp = Except.error e)
    (htok : rustTrim tok ≠ "") :
    (deployTask env slug st).1.run_id = some run.id ∧
    (deployTask env slug st).1.ls_last_run_id = some (toString run.id) ∧
    (deployTask env slug st).2.2 = DeployExit.pollInterrupted e ∧
    (deployTask env slug st).1.busy = false ∧
    ∀ pollResp2, (on_resume pollResp2 tok (deployTask env slug st).1).2 = some run.id := by
  have hne : (uploadErrs env slug).isEmpty = false ↔ False := by simp [hup]
  unfold deployTask
  dsimp only
  rw [hw, hd, hp]
  simp only [hup, List.isEmpty_nil]
  refine ⟨rfl, rfl, rfl, rfl, ?_⟩
  intro pollResp2
  unfold on_resume
  simp only [htok]
  cases pollResp2 <;> simp

/-- Environment for the C7 witness: uploads succeed, dispatch succeeds,
run 123 is resolved, and the poll times out. -/
def envC7 : DeployEnv where
  baselineResp := Except.ok [runOfId 5]
  upsertResp := fun _ => Except.ok ()
  dispatchResp := Except.ok ()
  resolveTrace := [(0, Except.ok [runOfId 123])]
  pollResp := Except.error "Stopped polling (timeout). Tap Resume Polling."

/-- Witness for `C7_poll_timeout_preserves_run_id` at `envC7`. -/
theorem C7_poll_timeout_preserves_run_id_witness :
    (deployTask envC7 "demo" st0).1.run_id = some 123 ∧
    (on_resume (Except.error "later") "tok" (deployTask envC7 "demo" st0).1).2 = some 123 :=
  ⟨(C7_poll_timeout_preserves_run_id envC7 "demo" "tok" st0 (runOfId 123)
      "Stopped polling (timeout). Tap Resume Polling." rfl rfl rfl rfl (by decide)).1,
   (C7_poll_timeout_preserves_run_id envC7 "demo" "tok" st0 (runOfId 123)
      "Stopped polling (timeout). Tap Resume Polling." rfl rfl rfl rfl (by decide)).2.2.2.2
     (Except.error "later")⟩

/-- Claim C8: when the resolved run reaches a terminal state whose
conclusion is any string (in particular "failure" or "cancelled"), the
deploy ends in the `done` exit carrying that conclusion together with
the deployed external URL — not in any of the failure exits reserved
for orchestration errors. -/
theorem C8_remote_failure_is_done (env : DeployEnv) (slug : String) (st : AppState)
    (run : WorkflowRun) (stat : Option String) (conc : String)
    (hup : uploadErrs env slug = [])
    (hd : env.dispatchResp = Except.ok ())
    (hw : wait_for_new_run_id (baselineOf env) 120000 env.resolveTrace = some (Except.ok run))
    (hp : env.pollResp = Except.ok (stat, some conc)) :
    (deployTask env slug st).2.2 = DeployExit.done conc (deployed_url slug) ∧
    (∀ errs, (deployTask env slug st).2.2 ≠ DeployExit.uploadFailed errs) ∧
    (∀ e, (deployTask env slug st).2.2 ≠ DeployExit.dispatchFailed e ∧
          (deployTask env slug st).2.2 ≠ DeployExit.resolveFailed e ∧
          (deployTask env slug st).2.2 ≠ DeployExit.pollInterrupted e) := by
  have hmain : (deployTask env slug st).2.2 = DeployExit.done conc (deployed_url slug) := by
    unfold deployTask
    dsimp only
    rw [hw, hd, hp]
    simp [hup]
  refine ⟨hmain, ?_, ?_⟩
  · intro errs; rw [hmain]; simp
  · intro e; rw [hmain]; refine ⟨by simp, by simp, by simp⟩

/-- Environment for the C8 witness: the pipeline run concludes with
"failure". -/
def envC8 : DeployEnv where
  baselineResp := Except.ok [runOfId 5]
  upsertResp := fun _ => Except.ok ()
  dispatchResp := Except.ok ()
  resolveTrace := [(0, Except.ok [runOfId 321])]
  pollResp := Except.ok (some "completed", some "failure")

/-- Witness for `C8_remote_failure_is_done` at `envC8`. -/
theorem C8_remote_failure_is_done_witness :
    (deployTask envC8 "demo" st0).2.2 = DeployExit.done "failure" (deployed_url "demo") ∧
    (deployTask envC8 "demo" st0).2.2 ≠ DeployExit.pollInterrupted "x" :=
  ⟨(C8_remote_failure_is_done envC8 "demo" st0 (runOfId 321) (some "completed") "failure"
      rfl rfl rfl rfl).1,
   ((C8_remote_failure_is_done envC8 "demo" st0 (runOfId 321) (some "completed") "failure"
      rfl rfl rfl rfl).2.2 "x").2.2⟩

/-- Job used in the C4 counterexample: reported completed/success while
its only step is still in progress. -/
def jobC4 : Job where
  name := "build"
  status := some "completed"
  conclusion := some "success"
  steps := [{ name := "compile", status := some "in_progress", conclusion := none }]

/-- Claim C4 is false on the code as a statement about **steps**: in
this jobs response one step is not completed, yet the reducer reports
overall status completed with conclusion success, because the reduction
runs over the jobs' own status/conclusion fields, not the steps'. -/
theorem C4_counterexample :
    (∃ j ∈ (JobsResp.mk [jobC4]).jobs, ∃ s ∈ j.steps, s.status ≠ some "completed") ∧
    poll_overall (JobsResp.mk [jobC4]) = (some "completed", some "success") := by
  constructor
  · refine ⟨jobC4, by simp, ?_⟩
    refine ⟨{ name := "compile", status := some "in_progress", conclusion := none },
      by simp [jobC4], by decide⟩
  · rfl

/-- Claim C4 amended: the reducer works at **job** granularity — the
overall status is completed iff every job's status is completed; the
conclusion is absent iff some job is not completed; and once all jobs
are completed the conclusion is failure if any job's conclusion is
failure, else cancelled if any job's is cancelled, else success. -/
theorem C4_overall_is_job_level (jobs : JobsResp) :
    ((poll_overall jobs).1 = some "completed" ↔ ∀ j ∈ jobs.jobs, j.status = some "completed") ∧
    ((poll_overall jobs).2 = none ↔ ¬ (∀ j ∈ jobs.jobs, j.status = some "completed")) ∧
    ((∀ j ∈ jobs.jobs, j.status = some "completed") →
      (poll_overall jobs).2 =
        if ∃ j ∈ jobs.jobs, j.conclusion = some "failure" then some "failure"
        else if ∃ j ∈ jobs.jobs, j.conclusion = some "cancelled" then some "cancelled"
        else some "success") := by
  have ha : jobs.jobs.any (fun j => j.status != some "completed") = true ↔
      ¬ (∀ j ∈ jobs.jobs, j.status = some "completed") := by
    simp [List.any_eq_true]
  have hf : jobs.jobs.any (fun j => j.conclusion == some "failure") = true ↔
      ∃ j ∈ jobs.jobs, j.conclusion = some "failure" := by
    simp [List.any_eq_true]
  have hc : jobs.jobs.any (fun j => j.conclusion == some "cancelled") = true ↔
      ∃ j ∈ jobs.jobs, j.conclusion = some "cancelled" := by
    simp [List.any_eq_true]
  cases hA : jobs.jobs.any (fun j => j.status != some "completed") with
  | true =>
    have hnall := ha.mp hA
    refine ⟨iff_of_false (by simp [poll_overall, hA]) hnall,
            iff_of_true (by simp [poll_overall, hA]) hnall,
            fun hall => absurd hall hnall⟩
  | false =>
    have hall : ∀ j ∈ jobs.jobs, j.status = some "completed" := by
      by_contra hno
      have := ha.mpr hno
      rw [hA] at this
      exact Bool.noConfusion this
    refine ⟨iff_of_true (by simp [poll_overall, hA]) hall,
            iff_of_false ?_ (not_not_intro hall), fun _ => ?_⟩
    · simp only [poll_overall, hA]
      split
      · simp_all
      · split
        · simp
        · split <;> simp
    · simp only [poll_overall, hA, Bool.false_eq_true, if_false]
      by_cases hF : ∃ j ∈ jobs.jobs, j.conclusion = some "failure"
      · simp [hf.mpr hF, hF]
      · have hF2 : jobs.jobs.any (fun j => j.conclusion == some "failure") = false := by
          rw [← Bool.not_eq_true, hf]; exact hF
        by_cases hC : ∃ j ∈ jobs.jobs, j.conclusion = some "cancelled"
        · simp [hF2, hF, hc.mpr hC, hC]
        · have hC2 : jobs.jobs.any (fun j => j.conclusion == some "cancelled") = false := by
            rw [← Bool.not_eq_true, hc]; exact hC
          simp [hF2, hF, hC2, hC]

/-- Witness for `C4_overall_is_job_level`: a fully completed two-job
response with one cancelled job. -/
theorem C4_overall_is_job_level_witness :
    (poll_overall (JobsResp.mk
        [{ name := "a", status := some "completed", conclusion := some "success", steps := [] },
         { name := "b", status := some "completed", conclusion := some "cancelled", steps := [] }])).2 =
      if ∃ j ∈ (JobsResp.mk
        [{ name := "a", status := some "completed", conclusion := some "success", steps := [] },
         { name := "b", status := some "completed", conclusion := some "cancelled", steps := [] }]).jobs,
          j.conclusion = some "failure" then some "failure"
      else if ∃ j ∈ (JobsResp.mk
        [{ name := "a", status := some "completed", conclusion := some "success", steps := [] },
         { name := "b", status := some "completed", conclusion := some "cancelled", steps := [] }]).jobs,
          j.conclusion = some "cancelled" then some "cancelled"
      else some "success" :=
  (C4_overall_is_job_level _).2.2 (by decide)

/-- Fold step of `job_progress` never lets `done` overtake `total`. -/
theorem jpStep_le (jname : String) (st : Nat × Nat × String) (s : JobStep)
    (h : st.2.1 ≤ st.1) : (jpStep jname st s).2.1 ≤ (jpStep jname st s).1 := by
  unfold jpStep
  split
  · simpa using Nat.succ_le_succ h
  · split <;> simpa using Nat.le_succ_of_le h

/-- Step-list fold of `job_progress` preserves `done ≤ total`. -/
theorem foldSteps_le (jname : String) (steps : List JobStep) (st : Nat × Nat × String)
    (h : st.2.1 ≤ st.1) :
    (steps.foldl (jpStep jname) st).2.1 ≤ (steps.foldl (jpStep jname) st).1 := by
  induction steps generalizing st with
  | nil => simpa using h
  | cons s rest ih => exact ih _ (jpStep_le jname st s h)

/-- Job-list fold of `job_progress` preserves `done ≤ total`. -/
theorem foldJobs_le (jobsL : List Job) (st : Nat × Nat × String) (h : st.2.1 ≤ st.1) :
    (jobsL.foldl (fun acc j => j.steps.foldl (jpStep j.name) acc) st).2.1 ≤
    (jobsL.foldl (fun acc j => j.steps.foldl (jpStep j.name) acc) st).1 := by
  induction jobsL generalizing st with
  | nil => simpa using h
  | cons j rest ih => exact ih _ (foldSteps_le j.name j.steps st h)

/-- Claim C9: `job_progress` always reports `done ≤ total`; for any
such pair the rounded percentage is at most 100, so the `u8` narrowing
cannot wrap (`% 256` is the identity) and the call-site `.min 100`
clamp is redundant. -/
theorem C9_percent_bounded (jobs : JobsResp) :
    (job_progress jobs).1 ≤ (job_progress jobs).2.1 ∧
    (∀ d t, d ≤ t → poll_pct d t ≤ 100) ∧
    min (poll_pct (job_progress jobs).1 (job_progress jobs).2.1) 100 =
      poll_pct (job_progress jobs).1 (job_progress jobs).2.1 ∧
    poll_pct (job_progress jobs).1 (job_progress jobs).2.1 % 256 =
      poll_pct (job_progress jobs).1 (job_progress jobs).2.1 := by
  have hpct : ∀ d t : Nat, d ≤ t → poll_pct d t ≤ 100 := by
    intro d t h
    unfold poll_pct
    split
    · omega
    · rename_i ht
      have h2 : 0 < 2 * t := by omega
      have hlt : (200 * d + t) / (2 * t) < 101 := by
        rw [Nat.div_lt_iff_lt_mul h2]
        omega
      exact Nat.lt_succ_iff.mp hlt
  have hdt : (job_progress jobs).1 ≤ (job_progress jobs).2.1 := by
    have hfold := foldJobs_le jobs.jobs (0, 0, "") (le_refl 0)
    unfold job_progress
    dsimp only
    split
    · simp
    · split <;> simpa using hfold
  have hb := hpct _ _ hdt
  exact ⟨hdt, hpct, min_eq_left hb, Nat.mod_eq_of_lt (by omega)⟩

/-- Witness for `C9_percent_bounded` on a concrete two-step response. -/
theorem C9_percent_bounded_witness :
    poll_pct 1 3 ≤ 100 ∧
    (job_progress (JobsResp.mk [jobC4])).1 ≤ (job_progress (JobsResp.mk [jobC4])).2.1 :=
  ⟨(C9_percent_bounded (JobsResp.mk [jobC4])).2.1 1 3 (by decide),
   (C9_percent_bounded (JobsResp.mk [jobC4])).1⟩

/-- Specification count of all steps across jobs. -/
def stepsTotal (jobs : JobsResp) : Nat := (jobs.jobs.map (fun j => j.steps.length)).sum

/-- Completed steps of one job. -/
def doneCount (steps : List JobStep) : Nat :=
  (steps.filter (fun s => s.status == some "completed")).length

/-- Specification count of completed steps across jobs. -/
def stepsDone (jobs : JobsResp) : Nat := (jobs.jobs.map (fun j => doneCount j.steps)).sum

/-- Label of the first non-completed step of one job, in declaration
order, formatted as the source does. -/
def pendLabel (jname : String) (steps : List JobStep) : Option String :=
  steps.findSome? (fun s =>
    if s.status = some "completed" then none else some (jname ++ " → " ++ s.name))

/-- Label of the first non-completed step across jobs, in job/step
declaration order. -/
def jobsPendLabel (jobsL : List Job) : Option String :=
  jobsL.findSome? (fun j => pendLabel j.name j.steps)

/-- The source's step label is never the empty string (it contains
an arrow separator). -/
theorem label_ne_empty (jname sname : String) : jname ++ " → " ++ sname ≠ "" := by
  intro h
  have hlen := congrArg String.length h
  rw [String.length_append, String.length_append] at hlen
  have h3 : (" → " : String).length = 3 := rfl
  have h0 : ("" : String).length = 0 := rfl
  rw [h3, h0] at hlen
  omega

/-- Any label `pendLabel` produces is non-empty. -/
theorem pendLabel_ne_empty (jname : String) (steps : List JobStep) (lab : String)
    (h : pendLabel jname steps = some lab) : lab ≠ "" := by
  induction steps with
  | nil => simp [pendLabel] at h
  | cons s rest ih =>
    rw [pendLabel, List.findSome?_cons] at h
    by_cases hs : s.status = some "completed"
    · simp only [hs, if_true, eq_self_iff_true] at h
      exact ih (by rw [pendLabel]; exact h)
    · simp only [hs, if_false] at h
      have h2 : jname ++ " → " ++ s.name = lab := by
        simpa using h
      rw [← h2]
      exact label_ne_empty jname s.name

/-- Any label `jobsPendLabel` produces is non-empty. -/
theorem jobsPendLabel_ne_empty (jobsL : List Job) (lab : String)
    (h : jobsPendLabel jobsL = some lab) : lab ≠ "" := by
  induction jobsL with
  | nil => simp [jobsPendLabel] at h
  | cons j rest ih =>
    rw [jobsPendLabel, List.findSome?_cons] at h
    split at h
    · rename_i heq
      cases h
      exact pendLabel_ne_empty j.name j.steps lab heq
    · exact ih (by rw [jobsPendLabel]; exact h)

/-- Closed form of the step fold of `job_progress`. -/
theorem foldSteps_spec (jname : String) (steps : List JobStep) (t d : Nat) (cur : String) :
    steps.foldl (jpStep jname) (t, d, cur) =
      (t + steps.length, d + doneCount steps,
       if cur = "" then (pendLabel jname steps).getD "" else cur) := by
  induction steps generalizing t d cur with
  | nil =>
    simp only [List.foldl_nil, List.length_nil, doneCount, List.filter_nil, pendLabel,
      List.findSome?_nil, Option.getD_none, Nat.add_zero]
    by_cases hc : cur = "" <;> simp [hc]
  | cons s rest ih =>
    rw [List.foldl_cons]
    by_cases hs : s.status = some "completed"
    · rw [show jpStep jname (t, d, cur) s = (t + 1, d + 1, cur) by simp [jpStep, hs]]
      rw [ih]
      have hdc : doneCount (s :: rest) = doneCount rest + 1 := by
        simp [doneCount, hs]
      have hpl : pendLabel jname (s :: rest) = pendLabel jname rest := by
        rw [pendLabel, pendLabel, List.findSome?_cons]
        simp [hs]
      rw [hdc, hpl, List.length_cons]
      have ha : t + 1 + rest.length = t + (rest.length + 1) := by omega
      have hb : d + 1 + doneCount rest = d + (doneCount rest + 1) := by omega
      rw [ha, hb]
    · have hdc : doneCount (s :: rest) = doneCount rest := by
        simp [doneCount, hs]
      have hpl : pendLabel jname (s :: rest) = some (jname ++ " → " ++ s.name) := by
        rw [pendLabel, List.findSome?_cons]
        simp [hs]
      by_cases hc : cur = ""
      · rw [show jpStep jname (t, d, cur) s = (t + 1, d, jname ++ " → " ++ s.name) by
          simp [jpStep, hs, hc]]
        rw [ih]
        rw [if_neg (label_ne_empty jname s.name), hdc, hpl, if_pos hc, Option.getD_some,
          List.length_cons]
        have ha : t + 1 + rest.length = t + (rest.length + 1) := by omega
        rw [ha]
      · rw [show jpStep jname (t, d, cur) s = (t + 1, d, cur) by simp [jpStep, hs, hc]]
        rw [ih]
        rw [if_neg hc, hdc, if_neg hc, List.length_cons]
        have ha : t + 1 + rest.length = t + (rest.length + 1) := by omega
        rw [ha]

/-- Closed form of the job fold of `job_progress`. -/
theorem foldJobs_spec (jobsL : List Job) (t d : Nat) (cur : String) :
    jobsL.foldl (fun acc j => j.steps.foldl (jpStep j.name) acc) (t, d, cur) =
      (t + (jobsL.map (fun j => j.steps.length)).sum,
       d + (jobsL.map (fun j => doneCount j.steps)).sum,
       if cur = "" then (jobsPendLabel jobsL).getD "" else cur) := by
  induction jobsL generalizing t d cur with
  | nil =>
    simp only [List.foldl_nil, List.map_nil, List.sum_nil, Nat.add_zero, jobsPendLabel,
      List.findSome?_nil, Option.getD_none]
    by_cases hc : cur = "" <;> simp [hc]
  | cons j rest ih =>
    rw [List.foldl_cons, foldSteps_spec, ih]
    simp only [List.map_cons, List.sum_cons, jobsPendLabel, List.findSome?_cons, Prod.mk.injEq]
    refine ⟨by omega, by omega, ?_⟩
    by_cases hc : cur = ""
    · subst hc
      cases hpl : pendLabel j.name j.steps with
      | none => simp [hpl]
      | some lab => simp [hpl, pendLabel_ne_empty _ _ _ hpl]
    · simp only [if_neg hc]

/-- A job's completed-step count never exceeds its step count. -/
theorem doneCount_le (steps : List JobStep) : doneCount steps ≤ steps.length :=
  List.length_filter_le _ _

/-- A job's steps are all completed iff it contributes no pending
label. -/
theorem doneCount_eq_iff (jname : String) (steps : List JobStep) :
    doneCount steps = steps.length ↔ pendLabel jname steps = none := by
  induction steps with
  | nil => simp [doneCount, pendLabel]
  | cons s rest ih =>
    by_cases hs : s.status = some "completed"
    · have h1 : doneCount (s :: rest) = doneCount rest + 1 := by simp [doneCount, hs]
      have h2 : pendLabel jname (s :: rest) = pendLabel jname rest := by
        rw [pendLabel, pendLabel, List.findSome?_cons]
        simp [hs]
      rw [h1, h2, List.length_cons, ← ih]
      omega
    · have h1 : doneCount (s :: rest) = doneCount rest := by simp [doneCount, hs]
      have h2 : pendLabel jname (s :: rest) = some (jname ++ " → " ++ s.name) := by
        rw [pendLabel, List.findSome?_cons]
        simp [hs]
      rw [h1, h2, List.length_cons]
      have hle := doneCount_le rest
      constructor
      · intro h
        exact ((by omega : False)).elim
      · intro h
        exact Option.noConfusion h

/-- Summed completed-step counts never exceed summed step counts. -/
theorem sums_done_le (jobsL : List Job) :
    (jobsL.map (fun j => doneCount j.steps)).sum ≤
      (jobsL.map (fun j => j.steps.length)).sum := by
  induction jobsL with
  | nil => simp
  | cons j rest ih =>
    simp only [List.map_cons, List.sum_cons]
    have := doneCount_le j.steps
    omega

/-- All steps of all jobs are completed iff no pending label exists. -/
theorem stepsDone_eq_iff (jobsL : List Job) :
    (jobsL.map (fun j => doneCount j.steps)).sum = (jobsL.map (fun j => j.steps.length)).sum ↔
      jobsPendLabel jobsL = none := by
  induction jobsL with
  | nil => simp [jobsPendLabel]
  | cons j rest ih =>
    rw [List.map_cons, List.map_cons, List.sum_cons, List.sum_cons, jobsPendLabel,
      List.findSome?_cons]
    have hdle := doneCount_le j.steps
    have hsle := sums_done_le rest
    cases hpl : pendLabel j.name j.steps with
    | none =>
      have hde : doneCount j.steps = j.steps.length := (doneCount_eq_iff j.name j.steps).mpr hpl
      rw [hde]
      constructor
      · intro h
        exact ih.mp (by omega)
      · intro h
        have := ih.mpr h
        omega
    | some lab =>
      have hlt : doneCount j.steps ≠ j.steps.length := by
        intro hde
        rw [doneCount_eq_iff j.name] at hde
        rw [hde] at hpl
        exact Option.noConfusion hpl
      constructor
      · intro h
        exact absurd (by omega : doneCount j.steps = j.steps.length) hlt
      · intro h
        exact Option.noConfusion h

/-- Job used in the C5 counterexample. -/
def jobC5 : Job where
  name := "build"
  status := some "in_progress"
  conclusion := none
  steps := [{ name := "compile", status := some "in_progress", conclusion := none }]

/-- Claim C5 is false on the code in its label clause: the progress
label of the first non-completed step is not the step's name but
`"{job} → {step}"` — here `"build → compile"`, not `"compile"`. -/
theorem C5_counterexample :
    job_progress (JobsResp.mk [jobC5]) = (0, 1, "build → compile") ∧
    ("build → compile" : String) ≠ "compile" := by
  exact ⟨rfl, by decide⟩

/-- Claim C5 amended: with zero steps the reduction reports
`(0, 0, "Waiting for job steps…")`; with steps and all of them
completed it reports `"Finalizing…"` (the run itself not yet being
reported completed); otherwise the label is `"{job} → {step}"` of the
first non-completed step in job/step declaration order, with done and
total the completed/total step counts (the percentage is the half-up
rounding of `100 * done / total` by definition of `poll_pct`). -/
theorem C5_progress_reduction (jobs : JobsResp) :
    (stepsTotal jobs = 0 → job_progress jobs = (0, 0, "Waiting for job steps…")) ∧
    (stepsTotal jobs ≠ 0 → stepsDone jobs = stepsTotal jobs →
       job_progress jobs = (stepsTotal jobs, stepsTotal jobs, "Finalizing…")) ∧
    (∀ lab, jobsPendLabel jobs.jobs = some lab →
       job_progress jobs = (stepsDone jobs, stepsTotal jobs, lab)) ∧
    (stepsDone jobs = stepsTotal jobs ↔ jobsPendLabel jobs.jobs = none) := by
  have hfold : jobs.jobs.foldl (fun acc j => j.steps.foldl (jpStep j.name) acc) (0, 0, "") =
      (stepsTotal jobs, stepsDone jobs, (jobsPendLabel jobs.jobs).getD "") := by
    rw [foldJobs_spec]
    simp [stepsTotal, stepsDone]
  refine ⟨?_, ?_, ?_, stepsDone_eq_iff jobs.jobs⟩
  · intro h0
    simp [job_progress, hfold, h0]
  · intro h0 hde
    have hnone : jobsPendLabel jobs.jobs = none := (stepsDone_eq_iff jobs.jobs).mp hde
    simp [job_progress, hfold, h0, hde, hnone]
  · intro lab hlab
    have hne := jobsPendLabel_ne_empty jobs.jobs lab hlab
    have hdne : stepsDone jobs ≠ stepsTotal jobs := by
      intro hde
      rw [(stepsDone_eq_iff jobs.jobs).mp hde] at hlab
      exact Option.noConfusion hlab
    have hdle : stepsDone jobs ≤ stepsTotal jobs := sums_done_le jobs.jobs
    have h0 : stepsTotal jobs ≠ 0 := by omega
    simp [job_progress, hfold, h0, hlab, hne, hdne]

/-- Witness for `C5_progress_reduction`: the empty response and the
single-pending-step response. -/
theorem C5_progress_reduction_witness :
    job_progress (JobsResp.mk []) = (0, 0, "Waiting for job steps…") ∧
    job_progress (JobsResp.mk [jobC5]) =
      (stepsDone (JobsResp.mk [jobC5]), stepsTotal (JobsResp.mk [jobC5]), "build → compile") :=
  ⟨(C5_progress_reduction (JobsResp.mk [])).1 rfl,
   (C5_progress_reduction (JobsResp.mk [jobC5])).2.2.1 "build → compile" rfl⟩

/-- Valid code points below the surrogate range round-trip through
`Char.ofNat`. -/
theorem charOfNat_toNat (n : Nat) (h : n < 0xD800) : (Char.ofNat n).toNat = n := by
  have hv : n.isValidChar := Or.inl h
  simp [Char.ofNat, hv]
  rfl

/-- ASCII-lowercasing an ASCII alphanumeric yields `[a-z0-9]`. -/
theorem lower_alnum (ch : Char) (h : isAsciiAlnum (toAsciiLower ch) = true) :
    isLowerAlnum (toAsciiLower ch) = true := by
  unfold isAsciiAlnum at h
  unfold isLowerAlnum
  rw [decide_eq_true_iff] at h ⊢
  unfold toAsciiLower at h ⊢
  by_cases hup : 65 ≤ ch.toNat ∧ ch.toNat ≤ 90
  · rw [if_pos hup] at h ⊢
    have hn := charOfNat_toNat (ch.toNat + 32) (by omega)
    rw [hn] at h ⊢
    omega
  · rw [if_neg hup] at h ⊢
    omega

/-- Prepending a non-hyphen keeps the last element away from hyphens. -/
theorem getLast_cons_ne (x : Char) (acc : List Char) (hx : x ≠ '-')
    (h : acc.getLast? ≠ some '-') : (x :: acc).getLast? ≠ some '-' := by
  cases acc with
  | nil => simpa using hx
  | cons a t =>
    rw [List.getLast?_cons_cons]
    exact h

/-- Prepending to a non-empty list keeps its last element. -/
theorem getLast_cons_of_ne_nil (x : Char) (acc : List Char) (hne : acc ≠ [])
    (h : acc.getLast? ≠ some '-') : (x :: acc).getLast? ≠ some '-' := by
  cases acc with
  | nil => exact absurd rfl hne
  | cons a t =>
    rw [List.getLast?_cons_cons]
    exact h

/-- A `[a-z0-9]` character is not a hyphen. -/
theorem lowerAlnum_ne_dash (c : Char) (h : isLowerAlnum c = true) : c ≠ '-' := by
  intro heq
  subst heq
  simp [isLowerAlnum] at h

/-- Well-formedness invariant carried by the `slugLoop` accumulator
(which holds `out` in reverse): every character is `[a-z0-9]` or a
hyphen, no two hyphens are adjacent, the last element (the first
character of `out`) is not a hyphen, and `prevDash` mirrors whether the
head is a hyphen. -/
def accInv (acc : List Char) (prevDash : Bool) : Prop :=
  (∀ c ∈ acc, isLowerAlnum c = true ∨ c = '-') ∧
  List.Chain' (fun a b => ¬(a = '-' ∧ b = '-')) acc ∧
  acc.getLast? ≠ some '-' ∧
  (prevDash = true ↔ acc.head? = some '-')

/-- `slugLoop` preserves the accumulator invariant (stated on the three
components that survive to the result). -/
theorem slugLoop_inv : ∀ (input acc : List Char) (pd : Bool), accInv acc pd →
    (∀ c ∈ slugLoop input acc pd, isLowerAlnum c = true ∨ c = '-') ∧
    List.Chain' (fun a b => ¬(a = '-' ∧ b = '-')) (slugLoop input acc pd) ∧
    (slugLoop input acc pd).getLast? ≠ some '-'
  | [], acc, pd, hinv => ⟨hinv.1, hinv.2.1, hinv.2.2.1⟩
  | ch :: rest, acc, pd, hinv => by
    rw [slugLoop]
    by_cases hal : isAsciiAlnum (toAsciiLower ch) = true
    · rw [if_pos hal]
      have hc : isLowerAlnum (toAsciiLower ch) = true := lower_alnum ch hal
      have hnd : toAsciiLower ch ≠ '-' := lowerAlnum_ne_dash _ hc
      refine slugLoop_inv rest _ false ⟨?_, ?_, ?_, ?_⟩
      · intro c hcm
        rcases List.mem_cons.mp hcm with rfl | hm
        · exact Or.inl hc
        · exact hinv.1 c hm
      · exact hinv.2.1.cons' (fun y _ hand => hnd hand.1)
      · exact getLast_cons_ne _ acc hnd hinv.2.2.1
      · simp [hnd]
    · rw [if_neg hal]
      by_cases hws : (isRustWhitespace (toAsciiLower ch) || toAsciiLower ch == '-' ||
          toAsciiLower ch == '_') = true
      · rw [if_pos hws]
        by_cases hpush : (!acc.isEmpty && !pd) = true
        · rw [if_pos hpush]
          have hne : acc ≠ [] := by
            intro he
            rw [he] at hpush
            simp at hpush
          have hpd : pd = false := by
            rcases (Bool.and_eq_true _ _).mp hpush with ⟨_, h2⟩
            simpa using h2
          have hhead : acc.head? ≠ some '-' := by
            intro hh
            rw [hpd] at hinv
            exact Bool.noConfusion (hinv.2.2.2.mpr hh)
          refine slugLoop_inv rest _ true ⟨?_, ?_, ?_, ?_⟩
          · intro c hcm
            rcases List.mem_cons.mp hcm with rfl | hm
            · exact Or.inr rfl
            · exact hinv.1 c hm
          · refine hinv.2.1.cons' (fun y hy hand => ?_)
            rw [Option.mem_def] at hy
            exact hhead (hand.2 ▸ hy)
          · exact getLast_cons_of_ne_nil _ acc hne hinv.2.2.1
          · simp
        · rw [if_neg hpush]
          exact slugLoop_inv rest acc pd hinv
      · rw [if_neg hws]
        exact slugLoop_inv rest acc pd hinv

/-- The head surviving a `dropWhile` fails the dropped predicate. -/
theorem dropWhile_head_not (p : Char → Bool) : ∀ (l : List Char) (c : Char),
    (l.dropWhile p).head? = some c → p c = false
  | [], c => by simp
  | a :: rest, c => by
    rw [List.dropWhile_cons]
    split
    · exact dropWhile_head_not p rest c
    · rename_i hp
      intro h
      have : a = c := by simpa using h
      subst this
      simpa using hp

/-- `dropWhile` keeps the last element away from hyphens. -/
theorem dropWhile_getLast_ok (p : Char → Bool) : ∀ l : List Char,
    l.getLast? ≠ some '-' → (l.dropWhile p).getLast? ≠ some '-'
  | [], _ => by simp
  | a :: rest, h => by
    rw [List.dropWhile_cons]
    split
    · refine dropWhile_getLast_ok p rest ?_
      cases hr : rest with
      | nil => simp
      | cons b tl =>
        rw [hr] at h
        rw [List.getLast?_cons_cons] at h
        exact h
    · exact h

/-- A non-empty list of `[a-z0-9-]` characters with no adjacent hyphens
and hyphen-free ends matches the anchored slug grammar.  The two parts
mirror the two matcher states. -/
theorem slug_wf_match : ∀ l : List Char,
    (∀ c ∈ l, isLowerAlnum c = true ∨ c = '-') →
    List.Chain' (fun a b => ¬(a = '-' ∧ b = '-')) l →
    l.getLast? ≠ some '-' →
    slugAfter l = true ∧ (l.head? ≠ some '-' → l ≠ [] → slugChunk l = true)
  | [] => fun _ _ _ => ⟨rfl, fun _ h => absurd rfl h⟩
  | c :: rest => fun hcl hch hlast => by
    have hcl2 : ∀ x ∈ rest, isLowerAlnum x = true ∨ x = '-' :=
      fun x hx => hcl x (List.mem_cons_of_mem c hx)
    have hch2 : List.Chain' (fun a b => ¬(a = '-' ∧ b = '-')) rest := hch.tail
    have hlast2 : rest.getLast? ≠ some '-' := by
      cases hr : rest with
      | nil => simp
      | cons b tl =>
        rw [hr] at hlast
        rw [List.getLast?_cons_cons] at hlast
        exact hlast
    have ih := slug_wf_match rest hcl2 hch2 hlast2
    by_cases hcd : c = '-'
    · subst hcd
      have hrne : rest ≠ [] := by
        intro he
        rw [he] at hlast
        simp at hlast
      have hrhead : rest.head? ≠ some '-' := by
        intro hh
        have := (List.chain'_cons'.mp hch).1 '-' (Option.mem_def.mpr hh)
        exact this ⟨rfl, rfl⟩
      have hchunk := ih.2 hrhead hrne
      constructor
      · rw [slugAfter]
        simp [hchunk]
      · intro hhead _
        exact absurd rfl hhead
    · have hcal : isLowerAlnum c = true := by
        rcases hcl c (List.mem_cons_self c rest) with h | h
        · exact h
        · exact absurd h hcd
      constructor
      · rw [slugAfter]
        rw [if_neg (by simpa using hcd)]
        rw [hcal, ih.1]
        rfl
      · intro _ _
        rw [slugChunk, hcal, ih.1]
        rfl

/-- Claim C6 is false on the code in two points: a run of non-[a-z0-9]
punctuation is **dropped**, not collapsed to a hyphen (`"a.b"`
normalizes to `"ab"`, not `"a-b"`), and an all-punctuation input yields
`None` — there is no fallback constant. -/
theorem C6_counterexample :
    sanitize_slug_from_app_name "a.b" = some "ab" ∧
    some ("ab" : String) ≠ some ("a-b" : String) ∧
    sanitize_slug_from_app_name "!!!" = none := by
  refine ⟨by decide, by decide, by decide⟩

/-- Claim C6 amended: the normalizer ASCII-lowercases, turns runs of
whitespace / hyphen / underscore into a single never-leading hyphen,
**drops** all other punctuation, trims trailing hyphens and returns
`none` (not a fallback constant) when nothing remains; consequently
every produced slug matches `^[a-z0-9]+(-[a-z0-9]+)*$`. -/
theorem C6_slug_normalization :
    (∀ s out, sanitize_slug_from_app_name s = some out → slugRegexMatch out = true) ∧
    sanitize_slug_from_app_name "My  App_Name" = some "my-app-name" ∧
    sanitize_slug_from_app_name "a.b" = some "ab" ∧
    sanitize_slug_from_app_name "  " = none := by
  refine ⟨?_, by decide, by decide, by decide⟩
  intro s out h
  simp only [sanitize_slug_from_app_name] at h
  split at h
  · exact Option.noConfusion h
  · set acc := slugLoop (trimChars s.data) [] false with hacc
    have hinv0 : accInv ([] : List Char) false := ⟨by simp, by simp, by simp, by simp⟩
    have hprops := slugLoop_inv (trimChars s.data) [] false hinv0
    rw [← hacc] at hprops
    set dw := acc.dropWhile (fun c => c == '-') with hdw
    split at h
    · exact Option.noConfusion h
    · rename_i hne
      have hout : String.mk dw.reverse = out := by simpa using h
      have hcl : ∀ c ∈ dw.reverse, isLowerAlnum c = true ∨ c = '-' := by
        intro c hc
        rw [List.mem_reverse] at hc
        exact hprops.1 c ((List.dropWhile_suffix _).subset hc)
      have hch : List.Chain' (fun a b => ¬(a = '-' ∧ b = '-')) dw.reverse := by
        rw [List.chain'_reverse]
        exact List.Chain'.imp (fun a b hr hand => hr ⟨hand.2, hand.1⟩)
          (hprops.2.1.suffix (List.dropWhile_suffix _))
      have hlast : dw.reverse.getLast? ≠ some '-' := by
        rw [List.getLast?_reverse]
        intro hh
        have := dropWhile_head_not (fun c => c == '-') acc '-' hh
        simp at this
      have hhead : dw.reverse.head? ≠ some '-' := by
        rw [List.head?_reverse]
        exact dropWhile_getLast_ok _ acc hprops.2.2
      have hne2 : dw.reverse ≠ [] := by simpa using hne
      have hmatch := (slug_wf_match dw.reverse hcl hch hlast).2 hhead hne2
      rw [← hout]
      exact hmatch

/-- Witness for `C6_slug_normalization` at a concrete display name. -/
theorem C6_slug_normalization_witness : slugRegexMatch "my-app-name" = true :=
  C6_slug_normalization.1 "My  App_Name" "my-app-name" (by decide)

/-- The alphabet lookup inverts the alphabet map on every sextet. -/
theorem sextet_char : ∀ n : Fin 64, b64Sextet (b64Char n.1) = some n.1 := by decide

/-- Variant of `sextet_char` for a bounded `Nat`. -/
theorem sextet_char_of_lt (n : Nat) (h : n < 64) : b64Sextet (b64Char n) = some n :=
  sextet_char ⟨n, h⟩

/-- No alphabet symbol is the pad `=` (61). -/
theorem b64Char_ne_61 (n : Nat) : b64Char n ≠ 61 := by
  unfold b64Char
  repeat' split
  all_goals omega

/-- No alphabet symbol is the newline byte 10. -/
theorem b64Char_ne_10 (n : Nat) : b64Char n ≠ 10 := by
  unfold b64Char
  repeat' split
  all_goals omega

/-- Base64 output never contains a newline byte. -/
theorem encode_no_nl : ∀ (bs : List Nat) (c : Nat), c ∈ b64EncodeBytes bs → c ≠ 10
  | [], c => by simp [b64EncodeBytes]
  | [b0], c => by
    intro hc
    simp only [b64EncodeBytes, List.mem_cons, List.not_mem_nil, or_false] at hc
    rcases hc with rfl | rfl | rfl | rfl
    · exact b64Char_ne_10 _
    · exact b64Char_ne_10 _
    · omega
    · omega
  | [b0, b1], c => by
    intro hc
    simp only [b64EncodeBytes, List.mem_cons, List.not_mem_nil, or_false] at hc
    rcases hc with rfl | rfl | rfl | rfl
    · exact b64Char_ne_10 _
    · exact b64Char_ne_10 _
    · exact b64Char_ne_10 _
    · omega
  | b0 :: b1 :: b2 :: r3 :: rest, c => by
    intro hc
    simp only [b64EncodeBytes, List.mem_cons] at hc
    rcases hc with rfl | rfl | rfl | rfl | hc
    · exact b64Char_ne_10 _
    · exact b64Char_ne_10 _
    · exact b64Char_ne_10 _
    · exact b64Char_ne_10 _
    · exact encode_no_nl (r3 :: rest) c hc
  | [b0, b1, b2], c => by
    intro hc
    simp only [b64EncodeBytes, List.mem_cons, List.not_mem_nil, or_false] at hc
    rcases hc with rfl | rfl | rfl | rfl
    · exact b64Char_ne_10 _
    · exact b64Char_ne_10 _
    · exact b64Char_ne_10 _
    · exact b64Char_ne_10 _

/-- Newline-stripping is the identity on base64 output. -/
theorem encode_filter_id (bs : List Nat) :
    (b64EncodeBytes bs).filter (fun c => c ≠ 10) = b64EncodeBytes bs := by
  apply List.filter_eq_self.mpr
  intro c hc
  simpa using encode_no_nl bs c hc

/-- Strict decoding inverts encoding on byte lists. -/
theorem decode_encode : ∀ bs : List Nat, (∀ b ∈ bs, b < 256) →
    b64DecodeBytes (b64EncodeBytes bs) = Except.ok bs
  | [], _ => rfl
  | [b0], h => by
    have hb0 : b0 < 256 := h b0 (by simp)
    have h1 : b64Sextet (b64Char (b0 / 4)) = some (b0 / 4) := sextet_char_of_lt _ (by omega)
    have h2 : b64Sextet (b64Char (b0 % 4 * 16)) = some (b0 % 4 * 16) :=
      sextet_char_of_lt _ (by omega)
    have h3 : b0 % 4 * 16 % 16 = 0 := by omega
    have e0 : b0 / 4 * 4 + b0 % 4 * 16 / 16 = b0 := by omega
    simp [b64EncodeBytes, b64DecodeBytes, h1, h2, h3, e0]
    omega
  | [b0, b1], h => by
    have hb0 : b0 < 256 := h b0 (by simp)
    have hb1 : b1 < 256 := h b1 (by simp)
    have h1 : b64Sextet (b64Char (b0 / 4)) = some (b0 / 4) := sextet_char_of_lt _ (by omega)
    have h2 : b64Sextet (b64Char (b0 % 4 * 16 + b1 / 16)) = some (b0 % 4 * 16 + b1 / 16) :=
      sextet_char_of_lt _ (by omega)
    have h3 : b64Sextet (b64Char (b1 % 16 * 4)) = some (b1 % 16 * 4) :=
      sextet_char_of_lt _ (by omega)
    have h4 : b1 % 16 * 4 % 4 = 0 := by omega
    have h5 : b64Char (b1 % 16 * 4) ≠ 61 := b64Char_ne_61 _
    have e0 : b0 / 4 * 4 + (b0 % 4 * 16 + b1 / 16) / 16 = b0 := by omega
    have e1 : (b0 % 4 * 16 + b1 / 16) % 16 * 16 + b1 % 16 * 4 / 4 = b1 := by omega
    simp [b64EncodeBytes, b64DecodeBytes, h1, h2, h3, h4, h5, e0, e1]
    omega
  | b0 :: b1 :: b2 :: rest, h => by
    have hb0 : b0 < 256 := h b0 (by simp)
    have hb1 : b1 < 256 := h b1 (by simp)
    have hb2 : b2 < 256 := h b2 (by simp)
    have hrest : ∀ b ∈ rest, b < 256 := fun b hb => h b (by simp [hb])
    have h1 : b64Sextet (b64Char (b0 / 4)) = some (b0 / 4) := sextet_char_of_lt _ (by omega)
    have h2 : b64Sextet (b64Char (b0 % 4 * 16 + b1 / 16)) = some (b0 % 4 * 16 + b1 / 16) :=
      sextet_char_of_lt _ (by omega)
    have h3 : b64Sextet (b64Char (b1 % 16 * 4 + b2 / 64)) = some (b1 % 16 * 4 + b2 / 64) :=
      sextet_char_of_lt _ (by omega)
    have h4 : b64Sextet (b64Char (b2 % 64)) = some (b2 % 64) := sextet_char_of_lt _ (by omega)
    have h5 : b64Char (b2 % 64) ≠ 61 := b64Char_ne_61 _
    have ih := decode_encode rest hrest
    have e0 : b0 / 4 * 4 + (b0 % 4 * 16 + b1 / 16) / 16 = b0 := by omega
    have e1 : (b0 % 4 * 16 + b1 / 16) % 16 * 16 + (b1 % 16 * 4 + b2 / 64) / 4 = b1 := by omega
    have e2 : (b1 % 16 * 4 + b2 / 64) % 4 * 64 + b2 % 64 = b2 := by omega
    simp [b64EncodeBytes, b64DecodeBytes, h1, h2, h3, h4, h5, ih, e0, e1, e2]

/-- Claim C10: with Rust strings modelled as their UTF-8 byte lists,
`b64_decode` inverts `b64_encode` on every valid string, and decoding
is insensitive to newline bytes in its input (they are stripped before
decoding). -/
theorem C10_base64_roundtrip :
    (∀ s : List Nat, (∀ b ∈ s, b < 256) → validUtf8 s = true →
       b64_decode (b64_encode s) = Except.ok s) ∧
    (∀ s : List Nat, b64_decode s = b64_decode (s.filter (fun c => c ≠ 10))) := by
  constructor
  · intro s hb hv
    unfold b64_encode b64_decode
    rw [encode_filter_id]
    dsimp only
    rw [decode_encode s hb]
    simp [string_from_utf8, hv]
  · intro s
    unfold b64_decode
    rw [List.filter_filter]
    simp only [Bool.and_self]

/-- Witness for `C10_base64_roundtrip` on the two-byte string "Hi". -/
theorem C10_base64_roundtrip_witness :
    b64_decode (b64_encode [72, 105]) = Except.ok [72, 105] :=
  C10_base64_roundtrip.1 [72, 105] (by decide) (by decide)

end Deployer
